import Mathlib

/-
Verification of the Controlled Chaos task manager.

The embedding below translates the TypeScript sources into Lean:
 - `src/types.ts`   : the data model (Task, ChatMessage, Settings, AppState, ...)
 - `src/ui.ts`      : `groupTasksByDate` (pure grouping and per-bucket sorting)
 - `src/storage.ts` : `load` / `save` over the browser local store
 - `src/api.ts`     : `extractProposedTasks`
 - `src/app.ts`     : `addTask`, `deleteTask`, `addChatMessage`, `sendMessage`,
                      `confirmProposedTasks`

Modelling conventions, stated once:
 - JavaScript date values are abstracted by two function parameters.
   `dayOf : String → Int` models the composite
   `d := new Date(s); new Date(d.getFullYear(), d.getMonth(), d.getDate())`
   as a calendar-day index on the same scale as `today : Int`, the day index
   of the current date; consecutive local midnights differ by 1 on this
   scale, so `tomorrow` is `today + 1` and `endOfWeek` is `today + 7`.
   `timeOf : String → Int` models `new Date(s).getTime()`.
 - `String.localeCompare` on plain "HH:MM" strings is modelled by
   character-wise lexicographic comparison (`lexCmp`).
 - `Array.prototype.sort` is stable (ES2019); it is modelled by a stable
   insertion sort driven by the same comparator.
 - Freshly generated identifiers and timestamps (`generateId`,
   `new Date().toISOString()`) are supplied as parameters
   (`gen : Nat → String × String` yields the n-th generated pair).
 - JavaScript truthiness on optional strings: `null`/`undefined` become
   `Option.none`; the empty string is falsy, which is modelled explicitly
   wherever the source tests truthiness of a string value.
 - The browser local store plus the JSON round trip is modelled by the
   structured value the parser recovers: `JSON.parse(JSON.stringify x)` is
   the identity on this data shape (strings, booleans, arrays, records,
   null), with absent optional fields modelled by `Option.none`.
 - DOM rendering calls (`UI.renderTasks`, modals, typing indicators,
   highlights) read state but never mutate it; they are dropped.
-/

namespace ControlledChaos

/-- Category of a task, `types.ts`: the closed union school | work | life. -/
inductive Category
  | school
  | work
  | life
deriving DecidableEq, Repr

/-- Theme of the UI settings, `types.ts`: light | dark. -/
inductive Theme
  | light
  | dark
deriving DecidableEq, Repr

/-- Author of a chat message, `types.ts`: user | assistant. -/
inductive Role
  | user
  | assistant
deriving DecidableEq, Repr

/-- `Task` from `types.ts`. `dueDate` and `dueTime` are nullable strings. -/
structure Task where
  id : String
  title : String
  dueDate : Option String
  dueTime : Option String
  category : Category
  completed : Bool
  createdAt : String
  notes : Option String := none
deriving DecidableEq, Repr

/-- `ChatMessage` from `types.ts`. -/
structure ChatMessage where
  id : String
  role : Role
  content : String
  timestamp : String
deriving DecidableEq, Repr

/-- `Settings` from `types.ts`; the display name is optional. -/
structure Settings where
  name : Option String
  theme : Theme
deriving DecidableEq, Repr

/-- `AppState` from `types.ts`: the aggregate persisted as a whole. -/
structure AppState where
  tasks : List Task
  chatHistory : List ChatMessage
  settings : Settings
deriving DecidableEq, Repr

/-- `TaskGroup` from `types.ts`: one rendered bucket. -/
structure TaskGroup where
  key : String
  label : String
  emoji : String
  tasks : List Task
deriving DecidableEq, Repr

/-- `ProposedTask` from `types.ts`: a transient AI task suggestion. -/
structure ProposedTask where
  title : String
  dueDate : Option String
  dueTime : Option String
  category : Category
deriving DecidableEq, Repr

/-- The `input` payload of a `ToolCall`, `types.ts`; every field optional. -/
structure ToolCallInput where
  tasks : Option (List ProposedTask) := none
  taskId : Option String := none
  reasoning : Option String := none
  firstStep : Option String := none
deriving DecidableEq, Repr

/-- `ToolCall` from `types.ts`; the name is kept as a plain string. -/
structure ToolCall where
  name : String
  input : ToolCallInput
deriving DecidableEq, Repr

/-- `ChatResponse` from `types.ts`: assistant text plus tool invocations. -/
structure ChatResponse where
  message : String
  toolCalls : List ToolCall
deriving DecidableEq, Repr

/-- The four buckets built by `groupTasksByDate` in `ui.ts`. -/
inductive Bucket
  | today
  | tomorrow
  | thisWeek
  | later
deriving DecidableEq, Repr

/-- Truthiness of the `dueTime` field as the sort comparator in `ui.ts`
tests it: `null`/`undefined` and the empty string are falsy. -/
def timeVal (t : Task) : Option String :=
  match t.dueTime with
  | none => none
  | some s => if s = "" then none else some s

/-- Character-list lexicographic comparison, the model of
`String.localeCompare` on plain "HH:MM" strings. -/
def lexCmp : List Char → List Char → Int
  | [], [] => 0
  | [], _ :: _ => -1
  | _ :: _, [] => 1
  | a :: as, b :: bs => if a < b then -1 else if b < a then 1 else lexCmp as bs

/-- The sort comparator from `ui.ts` lines 76-81:
times first (lexicographic), a timed task before an untimed one, untimed
tasks by `createdAt` (`timeOf` models `new Date(s).getTime()`). -/
def cmpTasks (timeOf : String → Int) (a b : Task) : Int :=
  match timeVal a, timeVal b with
  | some ta, some tb => lexCmp ta.data tb.data
  | some _, none => -1
  | none, some _ => 1
  | none, none => timeOf a.createdAt - timeOf b.createdAt

/-- Stable insertion of one element under a comparator: `x` goes before the
first element `y` with `c x y ≤ 0`, after everything that compares equal. -/
def insertCmp {α : Type} (c : α → α → Int) (x : α) : List α → List α
  | [] => [x]
  | y :: ys => if c x y ≤ 0 then x :: y :: ys else y :: insertCmp c x ys

/-- Stable sort by a comparator: the model of `Array.prototype.sort`
(stable per ES2019) for a consistent comparator. -/
def sortTasks {α : Type} (c : α → α → Int) : List α → List α
  | [] => []
  | x :: xs => insertCmp c x (sortTasks c xs)

/-- The bucket the if/else chain of `ui.ts` lines 54-71 selects for one
task. A falsy `dueDate` (null or empty) goes to LATER; otherwise the due
day index is compared against today, tomorrow and the end of the week. -/
def bucketOf (dayOf : String → Int) (today : Int) (t : Task) : Bucket :=
  match t.dueDate with
  | none => Bucket.later
  | some d =>
    if d = "" then Bucket.later
    else
      let du := dayOf d
      if du = today then Bucket.today
      else if du = today + 1 then Bucket.tomorrow
      else if du ≤ today + 7 ∧ today + 1 < du then Bucket.thisWeek
      else Bucket.later

/-- The incomplete subset, `tasks.filter(t => !t.completed)` in `ui.ts`. -/
def incompleteTasks (tasks : List Task) : List Task :=
  tasks.filter fun t => !t.completed

/-- The content of one bucket: the incomplete tasks the if/else chain
pushes into it (in input order), then sorted by the comparator. -/
def bucketTasks (dayOf timeOf : String → Int) (today : Int)
    (tasks : List Task) (b : Bucket) : List Task :=
  sortTasks (cmpTasks timeOf)
    ((incompleteTasks tasks).filter fun t => decide (bucketOf dayOf today t = b))

/-- `groupTasksByDate` from `ui.ts`: the four groups in insertion order
(`Object.values` preserves it), each with its key, label and emoji. -/
def groupTasksByDate (dayOf timeOf : String → Int) (today : Int)
    (tasks : List Task) : List TaskGroup :=
  [ { key := "today", label := "TODAY", emoji := "⚠️",
      tasks := bucketTasks dayOf timeOf today tasks Bucket.today },
    { key := "tomorrow", label := "TOMORROW", emoji := "📅",
      tasks := bucketTasks dayOf timeOf today tasks Bucket.tomorrow },
    { key := "thisWeek", label := "THIS WEEK", emoji := "📅",
      tasks := bucketTasks dayOf timeOf today tasks Bucket.thisWeek },
    { key := "later", label := "LATER / NO DATE", emoji := "📦",
      tasks := bucketTasks dayOf timeOf today tasks Bucket.later } ]

/-- `DEFAULT_STATE` from `storage.ts`: empty tasks and chat, light theme. -/
def DEFAULT_STATE : AppState :=
  { tasks := [], chatHistory := [], settings := { name := none, theme := Theme.light } }

/-- Settings as recovered by `JSON.parse`: every field may be absent. -/
structure StoredSettings where
  name : Option String := none
  theme : Option Theme := none
deriving DecidableEq, Repr

/-- The stored aggregate as recovered by `JSON.parse`: every top-level
field may be absent (forward compatibility after updates). -/
structure StoredState where
  tasks : Option (List Task) := none
  chatHistory : Option (List ChatMessage) := none
  settings : Option StoredSettings := none
deriving DecidableEq, Repr

/-- `save` from `storage.ts`: `JSON.stringify(state)` writes the whole
record; the store afterwards holds the structured value below (present
fields are present, the optional display name survives as is). -/
def save (state : AppState) : Option StoredState :=
  some { tasks := some state.tasks,
         chatHistory := some state.chatHistory,
         settings := some { name := state.settings.name,
                            theme := some state.settings.theme } }

/-- `load` from `storage.ts`: an absent record yields the default state;
otherwise each field is merged against the defaults
(`parsed.tasks || []`, `parsed.chatHistory || []`,
`{ ...DEFAULT_STATE.settings, ...parsed.settings }`). -/
def load (stored : Option StoredState) : AppState :=
  match stored with
  | none => DEFAULT_STATE
  | some parsed =>
    { tasks := parsed.tasks.getD [],
      chatHistory := parsed.chatHistory.getD [],
      settings :=
        match parsed.settings with
        | none => DEFAULT_STATE.settings
        | some s => { name := s.name, theme := s.theme.getD Theme.light } }

/-- `extractProposedTasks` from `api.ts`: the first call named
propose_tasks whose input carries a (non-null) tasks field wins; the check
`call.input.tasks` is truthy for every present array, the empty one
included. -/
def extractProposedTasks : List ToolCall → List ProposedTask
  | [] => []
  | c :: rest =>
    if c.name = "propose_tasks" then
      match c.input.tasks with
      | some ts => ts
      | none => extractProposedTasks rest
    else extractProposedTasks rest

/-- Whether one tool call satisfies the guard of `extractProposedTasks`. -/
def isProposeCall (c : ToolCall) : Bool :=
  c.name == "propose_tasks" && c.input.tasks.isSome

/-- The argument record of `addTask` in `app.ts`: title plus optional due
date, due time and category (each possibly undefined or null). -/
structure TaskData where
  title : String
  dueDate : Option String := none
  dueTime : Option String := none
  category : Option Category := none
deriving DecidableEq, Repr

/-- The JavaScript `v || null` on an optional string: null, undefined and
the empty string all collapse to null. -/
def orNull (v : Option String) : Option String :=
  match v with
  | none => none
  | some s => if s = "" then none else some s

/-- `addTask` from `app.ts` lines 43-66: builds the task (fresh id and
timestamp supplied as `newId`/`nowTs`), pushes it at the end of the task
collection and returns it. Persistence and rendering have no effect on
the state value. -/
def addTask (st : AppState) (d : TaskData) (newId nowTs : String) :
    AppState × Task :=
  let task : Task :=
    { id := newId,
      title := d.title,
      dueDate := orNull d.dueDate,
      dueTime := orNull d.dueTime,
      category := d.category.getD Category.life,
      completed := false,
      createdAt := nowTs,
      notes := none }
  ({ st with tasks := st.tasks ++ [task] }, task)

/-- `deleteTask` from `app.ts` lines 98-102: keep every task whose id
differs from the given identity. -/
def deleteTask (st : AppState) (i : String) : AppState :=
  { st with tasks := st.tasks.filter fun t => !(t.id == i) }

/-- `addChatMessage` from `app.ts` lines 118-134: builds a message with a
fresh id and timestamp and pushes it at the end of the chat history. -/
def addChatMessage (st : AppState) (role : Role) (content : String)
    (newId ts : String) : AppState :=
  { st with chatHistory :=
      st.chatHistory ++ [{ id := newId, role := role, content := content, timestamp := ts }] }

/-- The fixed fallback text of the catch branch of `sendMessage`. -/
def fallbackText : String :=
  "Sorry, I had trouble processing that. Please try again."

/-- `sendMessage` from `app.ts` lines 139-192, as a transition on the pair
(state, pending proposed tasks). The relay outcome is the `relay`
parameter: `Except.error` models a throw or rejection of the API call.
An empty text returns unchanged (the falsy guard on `text`); otherwise the
user message is appended (ids from `gen 0`), then either the catch branch
appends the fallback assistant message (ids from `gen 1`), or the success
branch stages a non-empty proposed batch and appends the assistant text
when it is non-empty. Tool extraction runs only when `toolCalls` is
non-empty; the recommendation only drives a DOM highlight. -/
def sendMessage (st : AppState) (pending : List ProposedTask) (text : String)
    (gen : Nat → String × String) (relay : Except Unit ChatResponse) :
    AppState × List ProposedTask :=
  if text = "" then (st, pending)
  else
    let st1 := addChatMessage st Role.user text (gen 0).1 (gen 0).2
    match relay with
    | Except.error _ =>
      (addChatMessage st1 Role.assistant fallbackText (gen 1).1 (gen 1).2, pending)
    | Except.ok resp =>
      let pending1 :=
        if resp.toolCalls.length > 0 then
          let proposed := extractProposedTasks resp.toolCalls
          if proposed.length > 0 then proposed else pending
        else pending
      let st2 :=
        if resp.message = "" then st1
        else addChatMessage st1 Role.assistant resp.message (gen 1).1 (gen 1).2
      (st2, pending1)

/-- The confirmation text appended after a non-empty confirmation. -/
def confirmText (n : Nat) : String :=
  "Added " ++ toString n ++ " task" ++ (if n > 1 then "s" else "") ++
    ". What would you like to tackle first?"

/-- `confirmProposedTasks` from `app.ts` lines 204-223: each selected
proposal becomes a real task via `addTask` (the n-th one consuming the
fresh pair `gen n`), the pending batch is reset to empty, and a
confirmation message (ids from `gen selected.length`) is appended only
when at least one proposal was selected. `selected` is the subset the
user checked in the modal (`getSelectedProposedTasks`). -/
def confirmProposedTasks (st : AppState) (selected : List ProposedTask)
    (gen : Nat → String × String) : AppState × List ProposedTask :=
  let stAfter := selected.enum.foldl
    (fun acc np =>
      (addTask acc
        { title := np.2.title, dueDate := np.2.dueDate,
          dueTime := np.2.dueTime, category := some np.2.category }
        (gen np.1).1 (gen np.1).2).1)
    st
  let stFinal :=
    if selected.length > 0 then
      addChatMessage stAfter Role.assistant (confirmText selected.length)
        (gen selected.length).1 (gen selected.length).2
    else stAfter
  (stFinal, [])

/-- Concrete task used by the C4 counterexample: created later (its
`createdAt` maps to the larger instant under the length model of
`timeOf`), listed first in the input. -/
def exTaskLate : Task :=
  { id := "t1", title := "first in input", dueDate := none,
    dueTime := some "10:00", category := Category.life,
    completed := false, createdAt := "bb", notes := none }

/-- Concrete task used by the C4 counterexample: created earlier, listed
second in the input, with the same due time as `exTaskLate`. -/
def exTaskEarly : Task :=
  { id := "t2", title := "second in input", dueDate := none,
    dueTime := some "10:00", category := Category.life,
    completed := false, createdAt := "a", notes := none }

/-- Concrete timestamp model used by witnesses and the counterexample:
the length of the string, an arbitrary executable instantiation of
`timeOf`. -/
def exTimeOf (s : String) : Int :=
  (s.length : Int)

/-- Concrete incomplete task with a due date, used by witnesses. -/
def exDayTask : Task :=
  { id := "d1", title := "due task", dueDate := some "2025-01-01",
    dueTime := none, category := Category.school,
    completed := false, createdAt := "c", notes := none }

/-- Concrete application state used by witnesses. -/
def exState : AppState :=
  { tasks := [exDayTask], chatHistory := [],
    settings := { name := none, theme := Theme.light } }

/-- Inserting with `insertCmp` permutes the element onto the list. -/
theorem insertCmp_perm {α : Type} (c : α → α → Int) (x : α) (l : List α) :
    (insertCmp c x l).Perm (x :: l) := by
  induction l with
  | nil => exact List.Perm.refl _
  | cons y ys ih =>
    unfold insertCmp
    by_cases h : c x y ≤ 0
    · rw [if_pos h]
    · rw [if_neg h]
      exact (ih.cons y).trans (List.Perm.swap x y ys)

/-- `sortTasks` permutes its input. -/
theorem sortTasks_perm {α : Type} (c : α → α → Int) (l : List α) :
    (sortTasks c l).Perm l := by
  induction l with
  | nil => exact List.Perm.refl _
  | cons x xs ih => exact (insertCmp_perm c x (sortTasks c xs)).trans (ih.cons x)

/-- Membership survives `sortTasks`. -/
theorem mem_sortTasks {α : Type} {c : α → α → Int} {x : α} {l : List α} :
    x ∈ sortTasks c l ↔ x ∈ l :=
  (sortTasks_perm c l).mem_iff

/-- For a comparator that is total and transitive on the nonpositive side,
`insertCmp` preserves sortedness. -/
theorem insertCmp_pairwise {α : Type} {c : α → α → Int}
    (hswap : ∀ a b, ¬ c a b ≤ 0 → c b a ≤ 0)
    (htrans : ∀ a b d, c a b ≤ 0 → c b d ≤ 0 → c a d ≤ 0)
    (x : α) {l : List α} (h : l.Pairwise fun a b => c a b ≤ 0) :
    (insertCmp c x l).Pairwise fun a b => c a b ≤ 0 := by
  induction l with
  | nil => simp [insertCmp]
  | cons y ys ih =>
    rw [List.pairwise_cons] at h
    obtain ⟨hy, hys⟩ := h
    unfold insertCmp
    by_cases hxy : c x y ≤ 0
    · rw [if_pos hxy, List.pairwise_cons]
      refine ⟨?_, List.pairwise_cons.mpr ⟨hy, hys⟩⟩
      intro z hz
      rcases List.mem_cons.mp hz with rfl | hz2
      · exact hxy
      · exact htrans x y z hxy (hy z hz2)
    · rw [if_neg hxy, List.pairwise_cons]
      refine ⟨?_, ih hys⟩
      intro z hz
      rcases List.mem_cons.mp ((insertCmp_perm c x ys).mem_iff.mp hz) with rfl | hz2
      · exact hswap _ _ hxy
      · exact hy z hz2

/-- `sortTasks` sorts: the output is pairwise nonpositive under the
comparator, provided the comparator is total and transitive there. -/
theorem sortTasks_pairwise {α : Type} {c : α → α → Int}
    (hswap : ∀ a b, ¬ c a b ≤ 0 → c b a ≤ 0)
    (htrans : ∀ a b d, c a b ≤ 0 → c b d ≤ 0 → c a d ≤ 0)
    (l : List α) : (sortTasks c l).Pairwise fun a b => c a b ≤ 0 := by
  induction l with
  | nil => simp [sortTasks]
  | cons x xs ih => exact insertCmp_pairwise hswap htrans x ih

/-- Swapping the arguments of `lexCmp` negates it. -/
theorem lexCmp_swap (a : List Char) : ∀ b, lexCmp b a = -lexCmp a b := by
  induction a with
  | nil => intro b; cases b <;> simp [lexCmp]
  | cons x xs ih =>
    intro b
    cases b with
    | nil => simp [lexCmp]
    | cons y ys =>
      simp only [lexCmp]
      rcases lt_trichotomy x y with h | h | h
      · simp [h, asymm h]
      · subst h
        simp [lt_irrefl, ih]
      · simp [h, asymm h]

/-- `lexCmp` is transitive on the nonpositive side. -/
theorem lexCmp_le_trans (a : List Char) :
    ∀ b c, lexCmp a b ≤ 0 → lexCmp b c ≤ 0 → lexCmp a c ≤ 0 := by
  induction a with
  | nil =>
    intro b c _ _
    cases c <;> simp [lexCmp]
  | cons x xs ih =>
    intro b c h1 h2
    cases b with
    | nil => simp [lexCmp] at h1
    | cons y ys =>
      cases c with
      | nil => simp [lexCmp] at h2
      | cons z zs =>
        simp only [lexCmp] at h1 h2 ⊢
        by_cases hxy : x < y
        · by_cases hyz : y < z
          · simp [lt_trans hxy hyz]
          · by_cases hzy : z < y
            · simp [hyz, hzy] at h2
            · have hyz' : y = z := le_antisymm (not_lt.mp hzy) (not_lt.mp hyz)
              subst hyz'
              simp [hxy]
        · by_cases hyx : y < x
          · simp [hxy, hyx] at h1
          · have hxy' : x = y := le_antisymm (not_lt.mp hyx) (not_lt.mp hxy)
            subst hxy'
            simp [lt_irrefl] at h1
            by_cases hxz : x < z
            · simp [hxz]
            · by_cases hzx : z < x
              · simp [hxz, hzx] at h2
              · have hxz' : x = z := le_antisymm (not_lt.mp hzx) (not_lt.mp hxz)
                subst hxz'
                simp [lt_irrefl] at h2 ⊢
                exact ih ys zs h1 h2

/-- The task comparator is total on the nonpositive side. -/
theorem cmpTasks_swap (timeOf : String → Int) (a b : Task)
    (h : ¬ cmpTasks timeOf a b ≤ 0) : cmpTasks timeOf b a ≤ 0 := by
  cases hva : timeVal a <;> cases hvb : timeVal b <;>
    simp only [cmpTasks, hva, hvb] at h ⊢
  · omega
  · omega
  · omega
  · rw [lexCmp_swap]
    omega

/-- The task comparator is transitive on the nonpositive side. -/
theorem cmpTasks_le_trans (timeOf : String → Int) (a b c : Task)
    (h1 : cmpTasks timeOf a b ≤ 0) (h2 : cmpTasks timeOf b c ≤ 0) :
    cmpTasks timeOf a c ≤ 0 := by
  cases hva : timeVal a <;> cases hvb : timeVal b <;> cases hvc : timeVal c <;>
    simp only [cmpTasks, hva, hvb, hvc] at h1 h2 ⊢ <;>
    first
    | omega
    | exact lexCmp_le_trans _ _ _ h1 h2

/-- Membership in a bucket characterised: the task is an incomplete input
task and the if/else chain selects this bucket for it. -/
theorem mem_bucketTasks {dayOf timeOf : String → Int} {today : Int}
    {tasks : List Task} {t : Task} {b : Bucket} :
    t ∈ bucketTasks dayOf timeOf today tasks b ↔
      t ∈ tasks ∧ t.completed = false ∧ bucketOf dayOf today t = b := by
  unfold bucketTasks incompleteTasks
  rw [mem_sortTasks, List.mem_filter, List.mem_filter]
  simp [and_assoc]

/-- Occurrence count in a filtered list, both polarities. -/
theorem count_filter_eq {α : Type} [DecidableEq α] (p : α → Bool) (a : α)
    (l : List α) :
    List.count a (List.filter p l) = if p a = true then List.count a l else 0 := by
  by_cases h : p a = true
  · rw [if_pos h, List.count_filter h]
  · rw [if_neg h]
    exact List.count_eq_zero.mpr fun hm => h (List.mem_filter.mp hm).2

/-- Filtering a list by the four bucket values and concatenating the
pieces permutes the list: the bucket function partitions it. -/
theorem filter_bucket_perm (f : Task → Bucket) (l : List Task) :
    ((l.filter fun t => decide (f t = Bucket.today)) ++
     ((l.filter fun t => decide (f t = Bucket.tomorrow)) ++
      ((l.filter fun t => decide (f t = Bucket.thisWeek)) ++
       (l.filter fun t => decide (f t = Bucket.later))))).Perm l := by
  rw [List.perm_iff_count]
  intro a
  simp only [List.count_append, count_filter_eq]
  cases hfa : f a <;> simp [hfa]

/-- C1: for every task list and every fixed current day, `groupTasksByDate`
returns exactly four buckets that are pairwise disjoint, whose contents
joined are a permutation of the incomplete subset of the input: every
incomplete task lands in exactly one bucket, nothing is duplicated, and no
completed task appears in any bucket. -/
theorem groupTasksByDate_partition (dayOf timeOf : String → Int) (today : Int)
    (tasks : List Task) :
    (groupTasksByDate dayOf timeOf today tasks).length = 4
    ∧ (((groupTasksByDate dayOf timeOf today tasks).map TaskGroup.tasks).flatten).Perm
        (tasks.filter fun t => !t.completed)
    ∧ (∀ t b b', t ∈ bucketTasks dayOf timeOf today tasks b →
        t ∈ bucketTasks dayOf timeOf today tasks b' → b = b')
    ∧ (∀ t b, t ∈ bucketTasks dayOf timeOf today tasks b →
        t.completed = false ∧ t ∈ tasks) := by
  refine ⟨rfl, ?_, ?_, ?_⟩
  · have hjoin :
        ((groupTasksByDate dayOf timeOf today tasks).map TaskGroup.tasks).flatten
          = bucketTasks dayOf timeOf today tasks Bucket.today ++
            (bucketTasks dayOf timeOf today tasks Bucket.tomorrow ++
             (bucketTasks dayOf timeOf today tasks Bucket.thisWeek ++
              (bucketTasks dayOf timeOf today tasks Bucket.later ++ []))) := rfl
    rw [hjoin, List.append_nil]
    have hperm : ∀ b, (bucketTasks dayOf timeOf today tasks b).Perm
        ((incompleteTasks tasks).filter fun t =>
          decide (bucketOf dayOf today t = b)) :=
      fun _ => sortTasks_perm _ _
    refine (((hperm _).append
      ((hperm _).append ((hperm _).append (hperm _)))).trans ?_)
    simpa [incompleteTasks] using
      filter_bucket_perm (bucketOf dayOf today) (incompleteTasks tasks)
  · intro t b b' h1 h2
    have e1 := (mem_bucketTasks.mp h1).2.2
    have e2 := (mem_bucketTasks.mp h2).2.2
    rw [← e1, ← e2]
  · intro t b h
    obtain ⟨ht, hc, _⟩ := mem_bucketTasks.mp h
    exact ⟨hc, ht⟩

/-- C2: an incomplete task whose due date falls on the current calendar
day is put in the TODAY bucket and in no other bucket, whatever its due
time is. -/
theorem groupTasksByDate_today_only (dayOf timeOf : String → Int)
    (today : Int) (tasks : List Task) (t : Task) (d : String)
    (hmem : t ∈ tasks) (hcomp : t.completed = false)
    (hdue : t.dueDate = some d) (hne : d ≠ "") (hday : dayOf d = today) :
    t ∈ bucketTasks dayOf timeOf today tasks Bucket.today
    ∧ ∀ b : Bucket, b ≠ Bucket.today →
        t ∉ bucketTasks dayOf timeOf today tasks b := by
  have hb : bucketOf dayOf today t = Bucket.today := by
    simp [bucketOf, hdue, hne, hday]
  refine ⟨mem_bucketTasks.mpr ⟨hmem, hcomp, hb⟩, ?_⟩
  intro b hbne hin
  have hb' := (mem_bucketTasks.mp hin).2.2
  rw [hb] at hb'
  exact hbne hb'.symm

/-- C3: an incomplete task due exactly 7 days after the current day is put
in the THIS WEEK bucket, not in LATER/NO-DATE: the week range is inclusive
at the upper boundary. -/
theorem groupTasksByDate_week_boundary (dayOf timeOf : String → Int)
    (today : Int) (tasks : List Task) (t : Task) (d : String)
    (hmem : t ∈ tasks) (hcomp : t.completed = false)
    (hdue : t.dueDate = some d) (hne : d ≠ "") (hday : dayOf d = today + 7) :
    t ∈ bucketTasks dayOf timeOf today tasks Bucket.thisWeek
    ∧ t ∉ bucketTasks dayOf timeOf today tasks Bucket.later := by
  have hb : bucketOf dayOf today t = Bucket.thisWeek := by
    have h1 : today + 7 ≠ today := by omega
    have h2 : today + 7 ≠ today + 1 := by omega
    have h3 : today + 7 ≤ today + 7 ∧ today + 1 < today + 7 := by omega
    simp [bucketOf, hdue, hne, hday, h1, h2, h3]
  refine ⟨mem_bucketTasks.mpr ⟨hmem, hcomp, hb⟩, ?_⟩
  intro hin
  have hb' := (mem_bucketTasks.mp hin).2.2
  rw [hb] at hb'
  exact Bucket.noConfusion hb'

/-- C4 counterexample: the claimed createdAt tie-break between tasks with
equal due times does not hold. On the concrete input
`[exTaskLate, exTaskEarly]` (equal due time "10:00", the later-created
task listed first) the LATER bucket keeps the input order, so it is not
ordered by ascending creation instant. -/
theorem groupTasksByDate_tie_counterexample :
    ¬ ((bucketTasks (fun _ => 0) exTimeOf 0 [exTaskLate, exTaskEarly]
          Bucket.later).Pairwise fun a b =>
        a.dueTime = b.dueTime → exTimeOf a.createdAt ≤ exTimeOf b.createdAt) := by
  decide

/-- C4 amended: within every bucket, every task with a due time comes
before every task without one, tasks with due times are in ascending
lexicographic due-time order, and tasks without due times are in ascending
createdAt order; ties between equal due times are not further ordered (the
comparator returns 0 there and the stable sort keeps the input order). -/
theorem groupTasksByDate_sorted_amended (dayOf timeOf : String → Int)
    (today : Int) (tasks : List Task) (b : Bucket) :
    (bucketTasks dayOf timeOf today tasks b).Pairwise fun a c =>
      (timeVal c ≠ none → timeVal a ≠ none)
      ∧ (∀ ta tc, timeVal a = some ta → timeVal c = some tc →
          lexCmp ta.data tc.data ≤ 0)
      ∧ (timeVal a = none → timeVal c = none →
          timeOf a.createdAt ≤ timeOf c.createdAt) := by
  have hp : (bucketTasks dayOf timeOf today tasks b).Pairwise
      fun x y => cmpTasks timeOf x y ≤ 0 :=
    sortTasks_pairwise (cmpTasks_swap timeOf) (cmpTasks_le_trans timeOf) _
  refine hp.imp ?_
  intro a c h
  cases hva : timeVal a with
  | none =>
    cases hvc : timeVal c with
    | none =>
      simp only [cmpTasks, hva, hvc] at h
      exact ⟨fun hcne => absurd rfl hcne,
             fun ta tc ha' _ => Option.noConfusion ha',
             fun _ _ => by omega⟩
    | some tc0 =>
      simp only [cmpTasks, hva, hvc] at h
      exact absurd h (by decide)
  | some ta0 =>
    cases hvc : timeVal c with
    | none =>
      exact ⟨fun hcne => absurd rfl hcne,
             fun ta tc _ hc' => Option.noConfusion hc',
             fun ha' _ => Option.noConfusion ha'⟩
    | some tc0 =>
      simp only [cmpTasks, hva, hvc] at h
      refine ⟨fun _ => by simp, fun ta tc ha' hc' => ?_,
              fun ha' _ => Option.noConfusion ha'⟩
      cases ha'
      cases hc'
      exact h

/-- Witness for C2 at a concrete input: a task due on the current day
lands in the TODAY bucket. -/
theorem groupTasksByDate_today_only_witness :
    exDayTask ∈ bucketTasks (fun _ => 0) exTimeOf 0 [exDayTask] Bucket.today :=
  (groupTasksByDate_today_only (fun _ => 0) exTimeOf 0 [exDayTask] exDayTask
    "2025-01-01" (by decide) (by decide) (by decide) (by decide) (by decide)).1

/-- Witness for C3 at a concrete input: a task due exactly 7 days out
lands in the THIS WEEK bucket. -/
theorem groupTasksByDate_week_boundary_witness :
    exDayTask ∈ bucketTasks (fun _ => 7) exTimeOf 0 [exDayTask] Bucket.thisWeek :=
  (groupTasksByDate_week_boundary (fun _ => 7) exTimeOf 0 [exDayTask] exDayTask
    "2025-01-01" (by decide) (by decide) (by decide) (by decide) (by decide)).1

/-- C5: saving an AppState and then loading (with no external mutation of
the store in between) returns an AppState equal to the saved one. -/
theorem load_save_roundtrip (st : AppState) : load (save st) = st := rfl

/-- C6: deleting an identity that is not the id of any task leaves the
task collection unchanged, and deletion is idempotent: deleting the same
identity a second time is a no-op. -/
theorem deleteTask_absent_idem (st : AppState) (i : String)
    (h : ∀ t ∈ st.tasks, t.id ≠ i) :
    deleteTask st i = st
    ∧ ∀ (st' : AppState) (j : String),
        deleteTask (deleteTask st' j) j = deleteTask st' j := by
  constructor
  · unfold deleteTask
    have hf : st.tasks.filter (fun t => !(t.id == i)) = st.tasks :=
      List.filter_eq_self.mpr fun t ht => by simp [h t ht]
    rw [hf]
  · intro st' j
    simp [deleteTask, List.filter_filter]

/-- Witness for C6 at a concrete input: deleting an absent identity is a
no-op. -/
theorem deleteTask_absent_idem_witness : deleteTask exState "zz" = exState :=
  (deleteTask_absent_idem exState "zz" (by decide)).1

/-- C7: when the relay call fails, the state after `sendMessage` appends
the user message and then exactly one assistant message carrying the fixed
fallback text; tasks, settings and the pending proposed batch are
untouched. -/
theorem sendMessage_failure_effects (st : AppState)
    (pending : List ProposedTask) (text : String)
    (gen : Nat → String × String) (e : Unit) (h : text ≠ "") :
    sendMessage st pending text gen (Except.error e) =
      ({ st with chatHistory := st.chatHistory ++
          [{ id := (gen 0).1, role := Role.user, content := text,
             timestamp := (gen 0).2 },
           { id := (gen 1).1, role := Role.assistant, content := fallbackText,
             timestamp := (gen 1).2 }] },
       pending) := by
  simp [sendMessage, addChatMessage, h]

/-- Witness for C7 at a concrete input. -/
theorem sendMessage_failure_effects_witness :
    sendMessage DEFAULT_STATE [] "hi" (fun _ => ("i", "ts"))
        (Except.error ()) =
      ({ tasks := [], chatHistory :=
          [{ id := "i", role := Role.user, content := "hi", timestamp := "ts" },
           { id := "i", role := Role.assistant, content := fallbackText,
             timestamp := "ts" }],
         settings := { name := none, theme := Theme.light } }, []) :=
  sendMessage_failure_effects DEFAULT_STATE [] "hi" (fun _ => ("i", "ts")) ()
    (by decide)

/-- C8: confirming with zero proposals selected leaves the whole state
unchanged (task collection included, and no confirmation chat message is
appended) and resets the pending proposed batch to empty. -/
theorem confirmProposedTasks_empty (st : AppState)
    (gen : Nat → String × String) :
    confirmProposedTasks st [] gen = (st, []) := rfl

/-- `orNull` is none exactly on the falsy inputs (absent or empty). -/
theorem orNull_eq_none_iff (v : Option String) :
    orNull v = none ↔ v = none ∨ v = some "" := by
  cases v with
  | none => simp [orNull]
  | some s =>
    by_cases h : s = "" <;> simp [orNull, h]

/-- `orNull` keeps a non-empty present string. -/
theorem orNull_some (v : Option String) (s : String) (hv : v = some s)
    (hne : s ≠ "") : orNull v = some s := by
  subst hv
  simp [orNull, hne]

/-- C9: the task built by `addTask` is incomplete, carries the freshly
generated id and timestamp, stores falsy due date and time as none and
non-empty ones as given, defaults the category to life when absent, and is
appended at the end of the collection with everything else unchanged. -/
theorem addTask_spec (st : AppState) (d : TaskData) (newId nowTs : String) :
    (addTask st d newId nowTs).2.completed = false
    ∧ (addTask st d newId nowTs).2.id = newId
    ∧ (addTask st d newId nowTs).2.createdAt = nowTs
    ∧ (addTask st d newId nowTs).2.title = d.title
    ∧ ((addTask st d newId nowTs).2.dueDate = none ↔
        d.dueDate = none ∨ d.dueDate = some "")
    ∧ (∀ s, d.dueDate = some s → s ≠ "" →
        (addTask st d newId nowTs).2.dueDate = some s)
    ∧ ((addTask st d newId nowTs).2.dueTime = none ↔
        d.dueTime = none ∨ d.dueTime = some "")
    ∧ (∀ s, d.dueTime = some s → s ≠ "" →
        (addTask st d newId nowTs).2.dueTime = some s)
    ∧ (d.category = none → (addTask st d newId nowTs).2.category = Category.life)
    ∧ (∀ ca, d.category = some ca → (addTask st d newId nowTs).2.category = ca)
    ∧ (addTask st d newId nowTs).1.tasks = st.tasks ++ [(addTask st d newId nowTs).2]
    ∧ (addTask st d newId nowTs).1.chatHistory = st.chatHistory
    ∧ (addTask st d newId nowTs).1.settings = st.settings := by
  refine ⟨rfl, rfl, rfl, rfl, orNull_eq_none_iff d.dueDate,
      fun s hs hne => orNull_some d.dueDate s hs hne,
      orNull_eq_none_iff d.dueTime,
      fun s hs hne => orNull_some d.dueTime s hs hne,
      fun hc => ?_, fun ca hc => ?_, rfl, rfl, rfl⟩
  · show d.category.getD Category.life = Category.life
    rw [hc]
    rfl
  · show d.category.getD Category.life = ca
    rw [hc]
    rfl

/-- Witness for C9 at a concrete input: an empty-string due date is
stored as none. -/
theorem addTask_spec_witness :
    (addTask DEFAULT_STATE { title := "x", dueDate := some "" } "i" "ts").2.dueDate
      = none :=
  (addTask_spec DEFAULT_STATE { title := "x", dueDate := some "" } "i"
      "ts").2.2.2.2.1.mpr (Or.inr rfl)

/-- A tool call the guard of `extractProposedTasks` skips leaves the
result unchanged. -/
theorem extractProposedTasks_skip (c' : ToolCall) (rest : List ToolCall)
    (h : isProposeCall c' = false) :
    extractProposedTasks (c' :: rest) = extractProposedTasks rest := by
  simp only [extractProposedTasks]
  by_cases hn : c'.name = "propose_tasks"
  · cases ho : c'.input.tasks with
    | none =>
      rw [if_pos hn]
    | some ts =>
      exfalso
      simp [isProposeCall, hn, ho] at h
  · rw [if_neg hn]

/-- With no matching call at all, extraction yields the empty list. -/
theorem extractProposedTasks_none (calls : List ToolCall)
    (h : ∀ c' ∈ calls, isProposeCall c' = false) :
    extractProposedTasks calls = [] := by
  induction calls with
  | nil => rfl
  | cons c' rest ih =>
    rw [extractProposedTasks_skip c' rest (h c' (List.mem_cons_self c' rest))]
    exact ih fun x hx => h x (List.mem_cons_of_mem c' hx)

/-- C10: extraction returns the tasks array of the first call named
propose_tasks whose input carries a tasks field, ignoring every later
call, and returns the empty list when no call matches. -/
theorem extractProposedTasks_first (calls₁ calls₂ : List ToolCall)
    (c : ToolCall) (hnone : ∀ c' ∈ calls₁, isProposeCall c' = false)
    (hc : isProposeCall c = true) :
    extractProposedTasks (calls₁ ++ c :: calls₂) = c.input.tasks.getD []
    ∧ ∀ calls : List ToolCall, (∀ c' ∈ calls, isProposeCall c' = false) →
        extractProposedTasks calls = [] := by
  constructor
  · induction calls₁ with
    | nil =>
      have hsplit : c.name = "propose_tasks" ∧ c.input.tasks.isSome = true := by
        simpa [isProposeCall] using hc
      obtain ⟨ts, hts⟩ := Option.isSome_iff_exists.mp hsplit.2
      rw [List.nil_append]
      unfold extractProposedTasks
      rw [if_pos hsplit.1, hts]
      rfl
    | cons c' rest ih =>
      rw [List.cons_append,
        extractProposedTasks_skip c' _ (hnone c' (List.mem_cons_self c' rest))]
      exact ih fun x hx => hnone x (List.mem_cons_of_mem c' hx)
  · exact fun calls h => extractProposedTasks_none calls h

/-- Witness for C10 at a concrete input: the first matching call wins
even behind a non-matching one, and its empty array is returned as is. -/
theorem extractProposedTasks_first_witness :
    extractProposedTasks
      [{ name := "other", input := {} },
       { name := "propose_tasks", input := { tasks := some [] } }] = [] :=
  (extractProposedTasks_first [{ name := "other", input := {} }] []
    { name := "propose_tasks", input := { tasks := some [] } }
    (by decide) (by decide)).1

end ControlledChaos
